import Mathlib

/-!
A shallow embedding of the `resource` Go package (scheme-based resource
resolution) together with proofs about its behaviour.

Modelling conventions:

* Go strings are modelled as Lean `String`s, viewed through their character
  lists (`String.data`).  The scheme separator `"://"` is pure ASCII, so for
  any valid UTF-8 string the first byte-level occurrence used by
  `strings.Index` coincides with the first character-level occurrence, and
  the byte slices on either side correspond exactly to the character slices.
* Fallible Go functions returning `(T, error)` become `Except Err T`.
* External collaborators (the base64 codec, `path/filepath`, the process
  environment, the HTTP transport) are modelled explicitly: the codec and
  the lexical path functions as executable Lean functions following their
  documented behaviour, the environment as an association list, and an HTTP
  transaction's outcome as an explicit argument.
* A Go run-time panic is modelled as the `none` value of an `Option`-typed
  result.
-/

namespace Resource

/-- Error taxonomy: one constructor per error the embedded code can return.
`schemeError`/`noSchemeError` embed `SchemeError`/`NoSchemeError`,
`tooManyDefaults` embeds `ErrTooManyDefaults`, `codecError` a base64
decoding error, `httpError` embeds `HTTPError`, and `transportError` an
error from the HTTP client itself. -/
inductive Err where
  | schemeError (value scheme : String)
  | noSchemeError (value : String)
  | tooManyDefaults
  | codecError (msg : String)
  | httpError (url : String) (code : Int)
  | transportError (msg : String)
deriving DecidableEq

/-- Resource handles (the Go `Interface` implementations `String`, `Bytes`,
`File` and `HTTP`).  In-memory handles carry their data, `file` carries the
absolute path stored by `FileResolver`, `http` carries the URL and open
method captured by `HTTPResolver`. -/
inductive Interface where
  | str (s : String)
  | bytes (b : List Nat)
  | file (path : String)
  | http (url : String) (openMethod : String)
deriving DecidableEq

deriving instance DecidableEq for Except

/-- UTF-8 encoding of a single character, as natural numbers. -/
def utf8Encode (c : Char) : List Nat :=
  let n := c.toNat
  if n < 0x80 then [n]
  else if n < 0x800 then [0xC0 + n / 64, 0x80 + n % 64]
  else if n < 0x10000 then [0xE0 + n / 4096, 0x80 + n / 64 % 64, 0x80 + n % 64]
  else [0xF0 + n / 262144, 0x80 + n / 4096 % 64, 0x80 + n / 64 % 64,
    0x80 + n % 64]

/-- UTF-8 bytes of a string, as natural numbers; the content streamed by the
Go `String` handle's reader. -/
def utf8Bytes (s : String) : List Nat :=
  (s.data.map utf8Encode).flatten

/-- The content obtainable from an in-memory handle's `Open`/`WriteTo`
(`File`/`HTTP` handles perform external I/O, out of scope here). -/
def Interface.openContent : Interface → Option (List Nat)
  | .str s => some (utf8Bytes s)
  | .bytes b => some b
  | _ => none

/-- `SchemeSeparator = "://"`. -/
def SchemeSeparator : String := "://"

/-- Character-level scan for the first occurrence of `"://"`: returns the
characters strictly before the first occurrence and those strictly after it,
or `none` when the separator does not occur.  This is `strings.Index`
followed by the two slices in `Split`. -/
def splitSep : List Char → Option (List Char × List Char)
  | [] => none
  | c :: rest =>
    if (c :: rest).take 3 = SchemeSeparator.data then
      some ([], rest.drop 2)
    else
      match splitSep rest with
      | some (pre, post) => some (c :: pre, post)
      | none => none

/-- `Split` parses a resource value into its scheme and value: slice around
the first occurrence of `"://"` when present, otherwise the scheme is empty
and the value is the whole string. -/
def Split (v : String) : String × String :=
  match splitSep v.data with
  | some (pre, post) => (⟨pre⟩, ⟨post⟩)
  | none => ("", v)

/-- A resolution strategy: the Go `Resolver` interface. -/
def Resolver : Type := String → Except Err Interface

/-- The Go `Resolvers` map type (`map[string]Resolver`).  `none` is a nil
map; `some m` is an initialized map whose entries are the association list
`m` (keys unique, maintained by `Resolvers.Set`). -/
def ResolversMap : Type := Option (List (String × Resolver))

/-- First-match association-list lookup (Go map indexing). -/
def assocGet : List (String × Resolver) → String → Option Resolver
  | [], _ => none
  | (k2, r) :: rest, k => if k2 = k then some r else assocGet rest k

/-- Association-list update: replace the entry for `k` when present,
otherwise append (Go map assignment: keys stay unique, last set wins). -/
def assocSet : List (String × Resolver) → String → Resolver → List (String × Resolver)
  | [], k, r => [(k, r)]
  | (k2, r2) :: rest, k, r =>
    if k2 = k then (k, r) :: rest else (k2, r2) :: assocSet rest k r

/-- `Resolvers.Get`: when `len(rs) > 0`, index the map and return the
`(value, ok)` pair; otherwise (empty or nil map) return not-found. -/
def Resolvers.Get (rs : ResolversMap) (k : String) : Option Resolver :=
  match rs with
  | none => none
  | some m => if m.length > 0 then assocGet m k else none

/-- `Resolvers.Set` through a pointer receiver.  The receiver models the
registry variable's current value (`none` = nil underlying map).  The Go
source tests `rs == nil` — the *pointer*, which is non-nil for any
addressable registry variable — so the initialization branch never runs and
control always reaches `(*rs)[k] = r`; assigning into a nil map is a Go
run-time panic, modelled as a `none` result.  `some rs2` is the updated
registry value. -/
def Resolvers.Set (rs : ResolversMap) (k : String) (r : Resolver) :
    Option ResolversMap :=
  match rs with
  | none => none
  | some m => some (some (assocSet m k r))

/-- `SchemeResolver`: a registry of per-scheme strategies plus an optional
strategy for scheme-less values. -/
structure SchemeResolver where
  Resolvers : ResolversMap := none
  NoScheme : Option Resolver := none

/-- `SchemeResolver.Resolve`: split off the scheme; a non-empty scheme is
looked up in the registry (not found is a `SchemeError`, found delegates the
original string `v`); an empty scheme uses the `NoScheme` strategy when
configured and is a `NoSchemeError` otherwise. -/
def SchemeResolver.Resolve (sr : SchemeResolver) (v : String) :
    Except Err Interface :=
  if (Split v).1.length > 0 then
    match Resolvers.Get sr.Resolvers (Split v).1 with
    | none => .error (.schemeError v (Split v).1)
    | some r => r v
  else
    match sr.NoScheme with
    | none => .error (.noSchemeError v)
    | some r => r v

/-- `StringResolver.Resolve`: discard the scheme and wrap the remaining
value as an in-memory string handle; never fails. -/
def StringResolver.Resolve (v : String) : Except Err Interface :=
  .ok (.str (Split v).2)

/-! ### The base64 codec (external collaborator `encoding/base64`)

The standard base64 alphabet with `=` padding; as in Go's decoder, carriage
returns and newlines are skipped before decoding and any other character
outside the alphabet is a corrupt-input error. -/

/-- Position of a character in the standard base64 alphabet. -/
def b64Index (c : Char) : Option Nat :=
  if 'A' ≤ c ∧ c ≤ 'Z' then some (c.toNat - 65)
  else if 'a' ≤ c ∧ c ≤ 'z' then some (c.toNat - 97 + 26)
  else if '0' ≤ c ∧ c ≤ '9' then some (c.toNat - 48 + 52)
  else if c = '+' then some 62
  else if c = '/' then some 63
  else none

/-- Decode base64 text four characters at a time; the final quantum may end
in one or two `=` padding characters. -/
def b64Quanta : List Char → Except String (List Nat)
  | [] => .ok []
  | c1 :: c2 :: c3 :: c4 :: rest =>
    match b64Index c1, b64Index c2 with
    | some i1, some i2 =>
      if c3 = '=' then
        if c4 = '=' ∧ rest = [] then .ok [i1 * 4 + i2 / 16]
        else .error "illegal base64 data"
      else
        match b64Index c3 with
        | some i3 =>
          if c4 = '=' then
            if rest = [] then .ok [i1 * 4 + i2 / 16, i2 % 16 * 16 + i3 / 4]
            else .error "illegal base64 data"
          else
            match b64Index c4 with
            | some i4 =>
              match b64Quanta rest with
              | .ok bs =>
                .ok ((i1 * 4 + i2 / 16) :: (i2 % 16 * 16 + i3 / 4) ::
                  (i3 % 4 * 64 + i4) :: bs)
              | .error e => .error e
            | none => .error "illegal base64 data"
        | none => .error "illegal base64 data"
    | _, _ => .error "illegal base64 data"
  | _ => .error "illegal base64 data"

/-- An `Encoding`'s `DecodeString`: drop `\r`/`\n`, then decode quanta. -/
def b64DecodeString (s : String) : Except String (List Nat) :=
  b64Quanta (s.data.filter fun c => c ≠ '\r' ∧ c ≠ '\n')

/-- A base64 encoding, reduced to the decoding capability the resolver
uses. -/
structure Encoding where
  decodeString : String → Except String (List Nat)

/-- `base64.StdEncoding`. -/
def stdEncoding : Encoding := ⟨b64DecodeString⟩

/-- `BytesResolver`: optional encoding, `nil` meaning `StdEncoding`. -/
structure BytesResolver where
  Encoding : Option Encoding := none

/-- `BytesResolver.Resolve`: pick the configured encoding (defaulting to
standard base64), discard the scheme, decode the remaining value; a decode
error is returned verbatim, otherwise the decoded bytes become an in-memory
handle. -/
def BytesResolver.Resolve (r : BytesResolver) (v : String) :
    Except Err Interface :=
  let enc := r.Encoding.getD stdEncoding
  match enc.decodeString (Split v).2 with
  | .error e => .error (.codecError e)
  | .ok b => .ok (.bytes b)

/-! ### Lexical path functions (external collaborator `path/filepath`)

Unix-style `Clean`, `Join` and `Abs`.  `Abs` depends on the ambient working
directory, which we pass explicitly; with it the functions are pure and
total (`filepath.Abs` can only fail when `Getwd` fails). -/

/-- Split a character list into its `/`-separated components. -/
def splitSlash : List Char → List (List Char)
  | [] => [[]]
  | c :: rest =>
    if c = '/' then [] :: splitSlash rest
    else
      match splitSlash rest with
      | [] => [[c]]
      | h :: t => (c :: h) :: t

/-- Join components with `/`. -/
def joinSlash : List (List Char) → List Char
  | [] => []
  | [c] => c
  | c :: cs => c ++ '/' :: joinSlash cs

/-- One step of `Clean`'s component scan: `acc` holds the output components
in reverse.  Empty and `.` components vanish; `..` pops a previous
component, or is dropped at the root of a rooted path, or is kept at the
front of a relative path. -/
def cleanComponents (rooted : Bool) :
    List (List Char) → List (List Char) → List (List Char)
  | acc, [] => acc
  | acc, p :: rest =>
    if p = [] ∨ p = ['.'] then cleanComponents rooted acc rest
    else if p = ['.', '.'] then
      match acc with
      | [] =>
        if rooted then cleanComponents rooted [] rest
        else cleanComponents rooted [['.', '.']] rest
      | a :: as =>
        if a = ['.', '.'] then cleanComponents rooted (p :: a :: as) rest
        else cleanComponents rooted as rest
    else cleanComponents rooted (p :: acc) rest

/-- `filepath.Clean` for `/`-separated paths. -/
def filepathClean (p : String) : String :=
  if p = "" then "."
  else if p.data.head? = some '/' then
    ⟨'/' :: joinSlash (cleanComponents true [] (splitSlash p.data)).reverse⟩
  else
    let out := joinSlash (cleanComponents false [] (splitSlash p.data)).reverse
    if out = [] then "." else ⟨out⟩

/-- `filepath.Join` on two elements: empty elements are dropped, the rest
joined with `/` and cleaned; all-empty input stays empty. -/
def filepathJoin (a b : String) : String :=
  if a = "" ∧ b = "" then ""
  else if a = "" then filepathClean b
  else if b = "" then filepathClean a
  else filepathClean (a ++ "/" ++ b)

/-- `filepath.IsAbs` on unix: the path starts with `/`. -/
def filepathIsAbs (p : String) : Bool :=
  p.data.head? = some '/'

/-- `filepath.Abs` relative to the working directory `cwd`. -/
def filepathAbs (cwd p : String) : String :=
  if filepathIsAbs p then filepathClean p else filepathJoin cwd p

/-- `FileResolver`: optional root directory. -/
structure FileResolver where
  Root : String := ""

/-- `FileResolver.Resolve`: discard the scheme, join the remaining value
onto `Root`, make the result absolute, and store it in a file handle.  With
`Getwd` modelled as the explicit `cwd`, the error branch of `filepath.Abs`
is unreachable, so resolution always succeeds. -/
def FileResolver.Resolve (r : FileResolver) (cwd : String) (v : String) :
    Except Err Interface :=
  .ok (.file (filepathAbs cwd (filepathJoin r.Root (Split v).2)))

/-! ### Environment lookup (`Getenv`) -/

/-- The process environment: an association of variable names to values.  A
variable absent from the list is unset. -/
def Env : Type := List (String × String)

/-- Lookup of a variable's stored value, `none` when unset. -/
def envLookup : Env → String → Option String
  | [], _ => none
  | (k2, w) :: rest, k => if k2 = k then some w else envLookup rest k

/-- `os.Getenv`: the stored value, or `""` when the variable is unset (an
unset variable and one set to the empty string are indistinguishable). -/
def osGetenv (env : Env) (key : String) : String :=
  (envLookup env key).getD ""

/-- `Getenv`: more than one default value is `ErrTooManyDefaults`; a
non-empty environment value wins; otherwise the single default, when given,
and failing that the empty string. -/
def Getenv (env : Env) (key : String) (defs : List String) :
    Except Err String :=
  if defs.length > 1 then .error .tooManyDefaults
  else
    let v := osGetenv env key
    if v.length > 0 then .ok v
    else if defs.length > 0 then .ok (defs.headD "")
    else .ok ""

/-! ### The HTTP handle's `Open` -/

/-- The observable state of a response body: the bytes not yet read, and
whether it has been closed. -/
structure BodyState where
  remaining : List Nat
  closed : Bool
deriving DecidableEq

/-- What the HTTP client's `Do` produced: a status code and a body. -/
structure HTTPResponse where
  statusCode : Int
  body : List Nat
deriving DecidableEq

/-- The Go `HTTP` handle, reduced to the fields `Open`'s error path reads
(the client is replaced by the explicit transaction outcome below). -/
structure HTTP where
  URL : String
  OpenMethod : String := ""
deriving DecidableEq

/-- `HTTP.Open`, as a function of the transaction's outcome `tr` (the result
of `h.transact()`, i.e. of the client's `Do`).  The first component is the
returned value: the stream handed to the caller (wrapped in `DrainOnClose`)
or the error.  The second component is the final state of the response body,
`none` when no response existed.  On a non-2xx status the body is read to
EOF (`io.Copy(ioutil.Discard, response.Body)`), then closed, and an
`HTTPError` with the handle's URL and the status code is returned. -/
def HTTP.Open (h : HTTP) (tr : Except String HTTPResponse) :
    Except Err BodyState × Option BodyState :=
  match tr with
  | .error e => (.error (.transportError e), none)
  | .ok resp =>
    let b : BodyState := ⟨resp.body, false⟩
    if resp.statusCode < 200 ∨ resp.statusCode > 299 then
      let b1 : BodyState := ⟨[], b.closed⟩
      let b2 : BodyState := ⟨b1.remaining, true⟩
      (.error (.httpError h.URL resp.statusCode), some b2)
    else
      (.ok b, some b)

/-- Decidable scan for an occurrence of `"://"`, used to discharge
no-separator hypotheses on concrete strings. -/
def containsSep : List Char → Bool
  | [] => false
  | c :: rest =>
    if (c :: rest).take 3 = SchemeSeparator.data then true else containsSep rest

/-! ## Supporting lemmas -/

theorem string_length_pos (s : String) : 0 < s.length ↔ s ≠ "" := by
  rw [Ne, String.ext_iff]
  exact List.length_pos

theorem not_exists_sep_of_scan (l : List Char) (h : containsSep l = false) :
    ¬ ∃ a b, l = a ++ SchemeSeparator.data ++ b := by
  induction l with
  | nil =>
    rintro ⟨a, b, e⟩
    cases a <;> simp [SchemeSeparator] at e
  | cons c rest ih =>
    rw [containsSep] at h
    split at h
    · exact absurd h (by simp)
    · rintro ⟨a, b, e⟩
      match a, e with
      | [], e =>
        have ht : (c :: rest).take 3 = SchemeSeparator.data := by
          simp only [List.nil_append] at e
          rw [e]
          simp [SchemeSeparator]
        simp_all
      | a0 :: a2, e =>
        simp only [List.cons_append, List.cons_eq_cons] at e
        exact ih h ⟨a2, b, e.2⟩

theorem splitSep_none (l : List Char)
    (h : ¬ ∃ a b, l = a ++ SchemeSeparator.data ++ b) :
    splitSep l = none := by
  induction l with
  | nil => rfl
  | cons c rest ih =>
    have hcond : ¬ (c :: rest).take 3 = SchemeSeparator.data := by
      intro he
      refine h ⟨[], (c :: rest).drop 3, ?_⟩
      simp only [List.nil_append]
      conv_lhs => rw [← List.take_append_drop 3 (c :: rest)]
      rw [he]
    have h2 : ¬ ∃ a b, rest = a ++ SchemeSeparator.data ++ b := by
      rintro ⟨a, b, e⟩
      exact h ⟨c :: a, b, by simp [e]⟩
    rw [splitSep, if_neg hcond, ih h2]

theorem splitSep_append (sch v : List Char)
    (h : ¬ ∃ a b, sch = a ++ SchemeSeparator.data ++ b) :
    splitSep (sch ++ (SchemeSeparator.data ++ v)) = some (sch, v) := by
  induction sch with
  | nil =>
    simp [splitSep, SchemeSeparator]
  | cons c sch ih =>
    have h2 : ¬ ∃ a b, sch = a ++ SchemeSeparator.data ++ b := by
      rintro ⟨a, b, e⟩
      exact h ⟨c :: a, b, by simp [e]⟩
    have hcond :
        ¬ (c :: (sch ++ (SchemeSeparator.data ++ v))).take 3
            = SchemeSeparator.data := by
      match sch with
      | [] =>
        show ¬ (c :: ([] ++ (SchemeSeparator.data ++ v))).take 3
            = SchemeSeparator.data
        intro he
        simp [SchemeSeparator] at he
      | [d] =>
        show ¬ (c :: ([d] ++ (SchemeSeparator.data ++ v))).take 3
            = SchemeSeparator.data
        intro he
        simp [SchemeSeparator] at he
      | d :: e :: sch2 =>
        intro he
        simp only [SchemeSeparator] at he
        simp at he
        exact h ⟨[], sch2, by
          simp [SchemeSeparator, he.1, he.2.1, he.2.2]⟩
    rw [List.cons_append, splitSep, if_neg hcond, ih h2]

theorem assocGet_assocSet_self (m : List (String × Resolver)) (k : String)
    (r : Resolver) : assocGet (assocSet m k r) k = some r := by
  induction m with
  | nil => simp [assocSet, assocGet]
  | cons p rest ih =>
    obtain ⟨k2, r2⟩ := p
    by_cases hk : k2 = k
    · simp [assocSet, hk, assocGet]
    · simp [assocSet, hk, assocGet, ih]

theorem assocGet_assocSet_ne (m : List (String × Resolver)) (k k2 : String)
    (r : Resolver) (h : k2 ≠ k) :
    assocGet (assocSet m k r) k2 = assocGet m k2 := by
  induction m with
  | nil => simp [assocSet, assocGet, Ne.symm h]
  | cons p rest ih =>
    obtain ⟨k3, r3⟩ := p
    by_cases hk : k3 = k
    · subst hk
      simp [assocSet, assocGet, Ne.symm h]
    · by_cases hk2 : k3 = k2 <;> simp [assocSet, hk, assocGet, hk2, ih, h]

theorem assocSet_length_pos (m : List (String × Resolver)) (k : String)
    (r : Resolver) : 0 < (assocSet m k r).length := by
  cases m with
  | nil => simp [assocSet]
  | cons p rest =>
    obtain ⟨k2, r2⟩ := p
    by_cases h : k2 = k <;> simp [assocSet, h]

theorem resolvers_get_some (m : List (String × Resolver)) (k : String) :
    Resolvers.Get (some m) k = assocGet m k := by
  cases m with
  | nil => simp [Resolvers.Get, assocGet]
  | cons p rest => simp [Resolvers.Get]

/-! ## The claims -/

/-- C3: `Split` splits on the first occurrence of the literal separator
`"://"`: a string not containing the separator splits into an empty scheme
and the whole string, and `scheme ++ "://" ++ value` splits into
`(scheme, value)` whenever `scheme` itself contains no separator. -/
theorem split_first_separator :
    (∀ s : String, (¬ ∃ a b, s.data = a ++ SchemeSeparator.data ++ b) →
      Split s = ("", s)) ∧
    (∀ scheme value : String,
      (¬ ∃ a b, scheme.data = a ++ SchemeSeparator.data ++ b) →
      Split (scheme ++ SchemeSeparator ++ value) = (scheme, value)) := by
  constructor
  · intro s h
    unfold Split
    rw [splitSep_none s.data h]
  · intro scheme value h
    have hd : (scheme ++ SchemeSeparator ++ value).data
        = scheme.data ++ (SchemeSeparator.data ++ value.data) := by
      simp [String.data_append]
    unfold Split
    rw [hd, splitSep_append scheme.data value.data h]

/-- Witness for C3 at concrete inputs. -/
theorem split_first_separator_witness :
    Split "plain" = ("", "plain") ∧ Split "foo://x" = ("foo", "x") := by
  constructor
  · exact split_first_separator.1 "plain"
      (not_exists_sep_of_scan "plain".data (by decide))
  · have e : ("foo" ++ SchemeSeparator ++ "x" : String) = "foo://x" := by
      decide
    rw [← e]
    exact split_first_separator.2 "foo" "x"
      (not_exists_sep_of_scan "foo".data (by decide))

/-- C1: `SchemeResolver.Resolve` fails with a `SchemeError` carrying the
original string and the scheme when the scheme is non-empty but not
registered, and with a `NoSchemeError` carrying the original string when the
scheme is empty and no `NoScheme` strategy is configured. -/
theorem schemeResolver_resolve_errors (sr : SchemeResolver) (v : String) :
    ((Split v).1 ≠ "" → Resolvers.Get sr.Resolvers (Split v).1 = none →
      sr.Resolve v = .error (.schemeError v (Split v).1)) ∧
    ((Split v).1 = "" → sr.NoScheme = none →
      sr.Resolve v = .error (.noSchemeError v)) := by
  constructor
  · intro h1 h2
    unfold SchemeResolver.Resolve
    rw [if_pos ((string_length_pos _).mpr h1), h2]
  · intro h1 h2
    unfold SchemeResolver.Resolve
    rw [if_neg (by simp [h1]), h2]

/-- Witness for C1 at concrete inputs. -/
theorem schemeResolver_resolve_errors_witness :
    SchemeResolver.Resolve ⟨none, none⟩ "foo://x"
      = .error (.schemeError "foo://x" "foo") ∧
    SchemeResolver.Resolve ⟨none, none⟩ "plain"
      = .error (.noSchemeError "plain") := by
  constructor
  · have e : (Split "foo://x").1 = "foo" := by decide
    have h := (schemeResolver_resolve_errors ⟨none, none⟩ "foo://x").1
      (by decide) rfl
    rwa [e] at h
  · exact (schemeResolver_resolve_errors ⟨none, none⟩ "plain").2 (by decide) rfl

/-- C2: when the (non-empty) scheme is registered, `SchemeResolver.Resolve`
delegates the original, unsplit string to the looked-up strategy and returns
exactly that strategy's result; likewise the original string goes unchanged
to the `NoScheme` strategy in the empty-scheme case. -/
theorem schemeResolver_resolve_delegates (sr : SchemeResolver) (v : String)
    (r : Resolver) :
    ((Split v).1 ≠ "" → Resolvers.Get sr.Resolvers (Split v).1 = some r →
      sr.Resolve v = r v) ∧
    ((Split v).1 = "" → sr.NoScheme = some r → sr.Resolve v = r v) := by
  constructor
  · intro h1 h2
    unfold SchemeResolver.Resolve
    rw [if_pos ((string_length_pos _).mpr h1), h2]
  · intro h1 h2
    unfold SchemeResolver.Resolve
    rw [if_neg (by simp [h1]), h2]

/-- Witness for C2 at concrete inputs. -/
theorem schemeResolver_resolve_delegates_witness :
    SchemeResolver.Resolve
        ⟨some [("string", StringResolver.Resolve)], none⟩ "string://hi"
      = StringResolver.Resolve "string://hi" ∧
    SchemeResolver.Resolve ⟨none, some StringResolver.Resolve⟩ "hi"
      = StringResolver.Resolve "hi" := by
  constructor
  · exact (schemeResolver_resolve_delegates
      ⟨some [("string", StringResolver.Resolve)], none⟩ "string://hi"
      StringResolver.Resolve).1 (by decide) rfl
  · exact (schemeResolver_resolve_delegates
      ⟨none, some StringResolver.Resolve⟩ "hi"
      StringResolver.Resolve).2 (by decide) rfl

/-- C4 (code evidence): `Set` through a registry reference whose underlying
map is nil does not initialize the map lazily — the source's nil test is on
the pointer rather than the map, so the nil-map case reaches the assignment
into the nil map, a Go run-time panic (`none`), instead of succeeding. -/
theorem resolvers_set_nil_map_panics (k : String) (r : Resolver) :
    Resolvers.Set none k r = none := rfl

/-- C5: on an initialized registry `Set` succeeds and `Get` then finds the
value just set, the last `Set` for a key winning; `Get` at a different key
is unaffected by a `Set`, and any key is not-found on a nil or empty
registry. -/
theorem resolvers_get_set (m : List (String × Resolver)) (k k2 : String)
    (r r2 : Resolver) (rs2 rs3 : ResolversMap) :
    (Resolvers.Set (some m) k r = some rs2 →
      Resolvers.Get rs2 k = some r ∧
      (k2 ≠ k → Resolvers.Get rs2 k2 = Resolvers.Get (some m) k2) ∧
      (Resolvers.Set rs2 k r2 = some rs3 → Resolvers.Get rs3 k = some r2)) ∧
    Resolvers.Get none k = none ∧
    Resolvers.Get (some []) k = none := by
  refine ⟨?_, rfl, rfl⟩
  intro hset
  have hrs2 : some (assocSet m k r) = rs2 := by
    simpa [Resolvers.Set] using hset
  subst hrs2
  refine ⟨?_, ?_, ?_⟩
  · rw [resolvers_get_some, assocGet_assocSet_self]
  · intro hne
    rw [resolvers_get_some, resolvers_get_some,
      assocGet_assocSet_ne _ _ _ _ hne]
  · intro hset3
    have hrs3 : some (assocSet (assocSet m k r) k r2) = rs3 := by
      simpa [Resolvers.Set] using hset3
    subst hrs3
    rw [resolvers_get_some, assocGet_assocSet_self]

/-- Witness for C5 at concrete inputs. -/
theorem resolvers_get_set_witness :
    Resolvers.Get (some [("a", StringResolver.Resolve)]) "a"
        = some StringResolver.Resolve ∧
    Resolvers.Get (some [("a", StringResolver.Resolve)]) "b"
        = Resolvers.Get (some []) "b" ∧
    Resolvers.Get (some [("a", fun v => Except.ok (Interface.str v))]) "a"
        = some fun v => Except.ok (Interface.str v) := by
  obtain ⟨h1, -, -⟩ := resolvers_get_set [] "a" "b" StringResolver.Resolve
    (fun v => Except.ok (Interface.str v))
    (some [("a", StringResolver.Resolve)])
    (some [("a", fun v => Except.ok (Interface.str v))])
  have h2 := h1 rfl
  exact ⟨h2.1, h2.2.1 (by decide), h2.2.2 rfl⟩

/-- C6: when the HTTP transaction completes with a non-2xx status, `Open`
returns no stream but an `HTTPError` carrying the handle's URL and the
status code, with the response body left fully drained and closed. -/
theorem http_open_non2xx (h : HTTP) (resp : HTTPResponse)
    (hs : resp.statusCode < 200 ∨ resp.statusCode > 299) :
    HTTP.Open h (.ok resp)
      = (.error (.httpError h.URL resp.statusCode), some ⟨[], true⟩) := by
  simp [HTTP.Open, hs]

/-- Witness for C6: a 404 response with an unread body. -/
theorem http_open_non2xx_witness :
    HTTP.Open ⟨"http://ex/a", ""⟩ (.ok ⟨404, [1, 2, 3]⟩)
      = (.error (.httpError "http://ex/a" 404), some ⟨[], true⟩) :=
  http_open_non2xx ⟨"http://ex/a", ""⟩ ⟨404, [1, 2, 3]⟩ (by decide)

/-- C7: `Getenv` fails with the too-many-defaults error exactly when more
than one default value is supplied; when the variable is unset and exactly
one default is supplied, it returns that default without error. -/
theorem getenv_defaults (env : Env) (key : String) (defs : List String) :
    (Getenv env key defs = .error .tooManyDefaults ↔ defs.length > 1) ∧
    (envLookup env key = none → ∀ d, Getenv env key [d] = .ok d) := by
  constructor
  · constructor
    · intro h
      by_contra hlen
      obtain ⟨s, hs⟩ : ∃ s, Getenv env key defs = .ok s := by
        unfold Getenv
        rw [if_neg hlen]
        dsimp only
        split_ifs <;> exact ⟨_, rfl⟩
      rw [hs] at h
      exact Except.noConfusion h
    · intro hlen
      unfold Getenv
      rw [if_pos hlen]
  · intro hu d
    simp [Getenv, osGetenv, hu]

/-- Witness for C7 at concrete inputs. -/
theorem getenv_defaults_witness :
    Getenv [] "MISSING" ["a", "b"] = .error .tooManyDefaults ∧
    Getenv [] "MISSING" ["fallback"] = .ok "fallback" :=
  ⟨(getenv_defaults [] "MISSING" ["a", "b"]).1.mpr (by decide),
   (getenv_defaults [] "MISSING" ["fallback"]).2 rfl "fallback"⟩

/-- C10: a variable whose stored value is the empty string is handled like
an unset one: `Getenv` returns the single supplied default, or the empty
string without error when no default is given, never treating the stored
empty value differently. -/
theorem getenv_empty_value_as_unset (env : Env) (key : String)
    (h : envLookup env key = some "") :
    (∀ d, Getenv env key [d] = .ok d) ∧ Getenv env key [] = .ok "" := by
  constructor
  · intro d
    simp [Getenv, osGetenv, h]
  · simp [Getenv, osGetenv, h]

/-- Witness for C10: a variable set to the empty string. -/
theorem getenv_empty_value_as_unset_witness :
    Getenv [("E", "")] "E" ["fallback"] = .ok "fallback" ∧
    Getenv [("E", "")] "E" [] = .ok "" :=
  ⟨(getenv_empty_value_as_unset [("E", "")] "E" rfl).1 "fallback",
   (getenv_empty_value_as_unset [("E", "")] "E" rfl).2⟩

/-- C8: `BytesResolver.Resolve` strips the scheme and decodes the remaining
value with the configured encoding (standard base64 when none is set): a
successful decode yields an in-memory byte handle streaming exactly the
decoded bytes, and a decode failure is returned verbatim as the error. -/
theorem bytesResolver_resolve_spec (r : BytesResolver) (v : String) :
    (∀ b, (r.Encoding.getD stdEncoding).decodeString (Split v).2 = .ok b →
      r.Resolve v = .ok (.bytes b)
        ∧ (Interface.bytes b).openContent = some b) ∧
    (∀ e, (r.Encoding.getD stdEncoding).decodeString (Split v).2 = .error e →
      r.Resolve v = .error (.codecError e)) := by
  constructor
  · intro b hb
    simp [BytesResolver.Resolve, hb, Interface.openContent]
  · intro e he
    simp [BytesResolver.Resolve, he]

/-- Witness for C8: the documented example `bytes://aGVsbG8=`. -/
theorem bytesResolver_resolve_spec_witness :
    BytesResolver.Resolve ⟨none⟩ "bytes://aGVsbG8="
        = .ok (.bytes (utf8Bytes "hello")) ∧
    (Interface.bytes (utf8Bytes "hello")).openContent
        = some (utf8Bytes "hello") :=
  (bytesResolver_resolve_spec ⟨none⟩ "bytes://aGVsbG8=").1
    (utf8Bytes "hello") (by decide)

theorem filepathClean_isAbs (p : String) (h : p.data.head? = some '/') :
    filepathIsAbs (filepathClean p) = true := by
  have hne : p ≠ "" := by
    intro he
    subst he
    simp at h
  unfold filepathClean
  rw [if_neg hne, if_pos h]
  simp [filepathIsAbs]

theorem filepathAbs_isAbs (cwd p : String) (h : filepathIsAbs cwd = true) :
    filepathIsAbs (filepathAbs cwd p) = true := by
  have hc : cwd.data.head? = some '/' := by
    simpa [filepathIsAbs] using h
  have hcw : cwd ≠ "" := by
    intro he
    subst he
    simp at hc
  unfold filepathAbs
  by_cases hp : filepathIsAbs p = true
  · rw [if_pos hp]
    exact filepathClean_isAbs p (by simpa [filepathIsAbs] using hp)
  · rw [if_neg hp]
    unfold filepathJoin
    rw [if_neg (by simp [hcw]), if_neg hcw]
    by_cases hpe : p = ""
    · rw [if_pos hpe]
      exact filepathClean_isAbs cwd hc
    · rw [if_neg hpe]
      apply filepathClean_isAbs
      obtain ⟨t, ht⟩ : ∃ t, cwd.data = '/' :: t := by
        cases hd : cwd.data with
        | nil => rw [hd] at hc; simp at hc
        | cons c t =>
          rw [hd] at hc
          simp at hc
          exact ⟨t, by rw [hc]⟩
      simp [String.data_append, ht]

/-- C9: `FileResolver.Resolve` strips the scheme, joins the remaining value
onto the optional root, makes the result absolute and stores it as the
handle's location; under an absolute working directory the stored location
is always an absolute path. -/
theorem fileResolver_resolve_spec (r : FileResolver) (cwd v : String) :
    FileResolver.Resolve r cwd v
      = .ok (.file (filepathAbs cwd (filepathJoin r.Root (Split v).2))) ∧
    (filepathIsAbs cwd = true →
      ∃ p, FileResolver.Resolve r cwd v = .ok (.file p) ∧
        filepathIsAbs p = true) := by
  refine ⟨rfl, ?_⟩
  intro hcwd
  exact ⟨_, rfl, filepathAbs_isAbs cwd _ hcwd⟩

/-- Witness for C9: root `/tmp` and input `file://a.txt`. -/
theorem fileResolver_resolve_spec_witness :
    FileResolver.Resolve ⟨"/tmp"⟩ "/w" "file://a.txt"
        = .ok (.file "/tmp/a.txt") ∧
    (∃ p, FileResolver.Resolve ⟨"/tmp"⟩ "/w" "file://a.txt"
        = .ok (.file p) ∧ filepathIsAbs p = true) := by
  constructor
  · have h := (fileResolver_resolve_spec ⟨"/tmp"⟩ "/w" "file://a.txt").1
    have e : filepathAbs "/w" (filepathJoin "/tmp" (Split "file://a.txt").2)
        = "/tmp/a.txt" := by decide
    rw [e] at h
    exact h
  · exact (fileResolver_resolve_spec ⟨"/tmp"⟩ "/w" "file://a.txt").2
      (by decide)

end Resource
